import Mathlib

/-!
Shallow embedding of the time-block resolution script `update_html.py` of the
electricity-data-viewer repository.

Modelling conventions:
* A time of day is a `Nat` counting seconds since midnight; an interval label
  such as "20:30-20:45" parses to start/end times that are multiples of 60.
* A pandas row is a `Row`: the "Časový interval" cell (an `Option String`,
  `none` modelling NaN) together with the list of required payload cells in
  column order (`none` modelling NaN).
* A raised Python exception is `Except.error` with a message naming the
  exception; `sys.exit(1)` in `fetch_and_process_data` is modelled by the
  `Except.error 1` of `fetch_and_process_data`.
-/

namespace UpdateHtml

/-- A table row: the interval-label cell plus the required payload cells.
`none` models a NaN cell. -/
structure Row where
  interval : Option String
  payload : List (Option String)
deriving DecidableEq, Repr

/-- The whitespace set of Python's `str.strip()` (ASCII part). -/
def py_is_space (c : Char) : Bool :=
  c == ' ' || c == '\t' || c == '\n' || c == '\r' || c == '\x0b' || c == '\x0c'

/-- Python's `str.strip()`: drop leading and trailing whitespace. -/
def py_strip (l : List Char) : List Char :=
  ((l.dropWhile py_is_space).reverse.dropWhile py_is_space).reverse

/-- Python's `str.split(sep)` for a one-character separator: split on every
occurrence, keeping empty fragments. -/
def split_on_char (sep : Char) : List Char → List (List Char)
  | [] => [[]]
  | c :: rest =>
    if c == sep then [] :: split_on_char sep rest
    else
      match split_on_char sep rest with
      | [] => [[c]]
      | g :: gs => (c :: g) :: gs

/-- The numeric value of a run of decimal digits, `none` when the run is
empty or holds a non-digit. -/
def digits_to_nat (l : List Char) : Option Nat :=
  if l.isEmpty || !(l.all Char.isDigit) then none
  else some (l.foldl (fun a c => a * 10 + (c.toNat - 48)) 0)

/-- `row_is_empty` from the source: true iff every required payload cell is
NaN or, as a trimmed string, empty. -/
def row_is_empty (row : Row) : Bool :=
  row.payload.all fun v =>
    match v with
    | none => true
    | some s => (py_strip s.toList).isEmpty

/-- One component of `datetime.strptime(s, "%H:%M")`: a directive such as
`%H` consumes one or two digits and the value must be below `bound`
(24 for hours, 60 for minutes); anything else raises `ValueError`. -/
def parse_hm_part (l : List Char) (bound : Nat) : Option Nat :=
  if l.length == 0 || decide (l.length > 2) then none
  else
    match digits_to_nat l with
    | none => none
    | some n => if n < bound then some n else none

/-- `datetime.strptime(s, "%H:%M").time()` as seconds since midnight, `none`
modelling the `ValueError` raised on any other shape. -/
def strptime_hm (l : List Char) : Option Nat :=
  match split_on_char ':' l with
  | [hs, ms] =>
    match parse_hm_part hs 24, parse_hm_part ms 60 with
    | some h, some m => some (h * 3600 + m * 60)
    | _, _ => none
  | _ => none

/-- The per-row interval parsing of `get_current_time_block`: split the label
on "-" into exactly two parts (any other arity raises `ValueError` at the
unpacking), strip each, parse each with `%H:%M`. -/
def parse_interval (s : String) : Option (Nat × Nat) :=
  match split_on_char '-' s.toList with
  | [a, b] =>
    match strptime_hm (py_strip a), strptime_hm (py_strip b) with
    | some st, some en => some (st, en)
    | _, _ => none
  | _ => none

/-- The `pd.isna` guard followed by interval parsing: a NaN label row is
skipped, otherwise the label is parsed. -/
def row_parses (r : Row) : Option (Nat × Nat) :=
  match r.interval with
  | none => none
  | some s => parse_interval s

/-- `row["Časový interval"]` as rendered into a diagnostic f-string
(`"nan"` is how a NaN cell prints). -/
def interval_text (row : Row) : String :=
  match row.interval with
  | none => "nan"
  | some s => s

/-- One entry of the `valid_rows` list: `(idx, start_t, end_t, crosses_midnight)`. -/
structure Candidate where
  idx : Nat
  start : Nat
  endT : Nat
  crossesMidnight : Bool
deriving DecidableEq, Repr

/-- The `valid_rows`-building loop, carrying the running `df.iterrows` index. -/
def valid_rows_aux : Nat → List Row → List Candidate
  | _, [] => []
  | i, r :: rest =>
    match row_parses r with
    | none => valid_rows_aux (i + 1) rest
    | some (st, en) => ⟨i, st, en, decide (st > en)⟩ :: valid_rows_aux (i + 1) rest

/-- `valid_rows` of `get_current_time_block`: the candidates with parseable
intervals, in table order, keeping their table indices. -/
def valid_rows (table : List Row) : List Candidate :=
  valid_rows_aux 0 table

/-- The per-candidate containment test of the scanning loop: a wrapping
interval matches when `now >= start or now < end`, a non-wrapping one when
`start <= now < end`. -/
def interval_matches_row (now : Nat) (c : Candidate) : Bool :=
  if c.crossesMidnight then decide (now ≥ c.start) || decide (now < c.endT)
  else decide (c.start ≤ now) && decide (now < c.endT)

/-- The per-iteration update of `last_before_now_idx`: when the candidate's
start is not after `now` and beats the stored start strictly, the state moves
to the current loop position.  The stored state is the pair (position in
`valid_rows`, start of that candidate); in the source the position is
recovered by `valid_rows.index(tuple)`, which is the current loop position
because the table indices inside the tuples are strictly increasing, so
tuples are pairwise distinct. -/
def scan_lb_update (now : Nat) (c : Candidate) (pos : Nat) (lb : Option (Nat × Nat)) :
    Option (Nat × Nat) :=
  if c.start ≤ now then
    match lb with
    | none => some (pos, c.start)
    | some (p, s) => if s < c.start then some (pos, c.start) else some (p, s)
  else lb

/-- The forward scanning loop of `get_current_time_block`, returning
`(matching_idx, last_before_now)`.  The loop body first tests containment,
then updates `last_before_now`, then breaks if a match was recorded, so the
matching row's own start still enters the `last_before_now` state. -/
def scan_go (now : Nat) : List Candidate → Nat → Option (Nat × Nat) →
    Option Nat × Option (Nat × Nat)
  | [], _, lb => (none, lb)
  | c :: rest, pos, lb =>
    if interval_matches_row now c then (some c.idx, scan_lb_update now c pos lb)
    else scan_go now rest (pos + 1) (scan_lb_update now c pos lb)

/-- The whole scanning loop started from an empty state. -/
def scan (now : Nat) (vr : List Candidate) : Option Nat × Option (Nat × Nat) :=
  scan_go now vr 0 none

/-- The `for idx in range(current_idx, -1, -1)` walk of
`get_last_non_empty_row`: `ok (some row)` is the first non-empty row found,
`ok none` means the loop fell through, `error` models `df.iloc` raising on an
out-of-range start index. -/
def walk_back (table : List Row) (i : Nat) : Except String (Option Row) :=
  match table.get? i with
  | none => Except.error "single positional indexer is out-of-bounds"
  | some row =>
    if row_is_empty row = false then Except.ok (some row)
    else
      match i with
      | 0 => Except.ok none
      | j + 1 => walk_back table j

/-- `get_last_non_empty_row(df, current_idx)` from the source. -/
def get_last_non_empty_row (table : List Row) (current_idx : Nat) :
    Except String (Row × String) :=
  match walk_back table current_idx with
  | Except.error e => Except.error e
  | Except.ok (some row) =>
    Except.ok (row, "No new data available after interval " ++ interval_text row ++
      ". Showing last known data from " ++ interval_text row ++ ".")
  | Except.ok none =>
    match table.get? 0 with
    | none => Except.error "single positional indexer is out-of-bounds"
    | some first_row =>
      Except.ok (first_row, "No non-empty row found at all; showing earliest row from table.")

/-- `get_current_time_block(df)` from the source, with the current CET time
injected as `now` (seconds since midnight).  The result is the returned
`(row, fallback_message)` pair; `Except.error` models an uncaught exception. -/
def get_current_time_block (now : Nat) (table : List Row) :
    Except String (Row × String) :=
  let vr := valid_rows table
  match vr with
  | [] =>
    match table.getLast? with
    | none => Except.error "single positional indexer is out-of-bounds"
    | some r => Except.ok (r, "No parseable intervals in the data.")
  | _ :: _ =>
    let res := scan now vr
    match res.1 with
    | some midx =>
      match table.get? midx with
      | none => Except.error "single positional indexer is out-of-bounds"
      | some row =>
        if row_is_empty row then get_last_non_empty_row table midx
        else Except.ok (row, "")
    | none =>
      match res.2 with
      | some (p, _) =>
        match vr.get? p with
        | none => Except.error "list index out of range"
        | some c =>
          match table.get? c.idx with
          | none => Except.error "single positional indexer is out-of-bounds"
          | some row =>
            if row_is_empty row then get_last_non_empty_row table c.idx
            else
              Except.ok (row, "No exact match for current time; showing last known data from " ++
                interval_text row ++ ".")
      | none =>
        match vr.head? with
        | none => Except.error "list index out of range"
        | some c0 =>
          match table.get? c0.idx with
          | none => Except.error "single positional indexer is out-of-bounds"
          | some row =>
            Except.ok (row, "All intervals are in the future; showing earliest interval in the data.")

/-- Gregorian leap-year test, as used by `datetime`'s day-of-month validation. -/
def is_leap (y : Nat) : Bool :=
  y % 4 == 0 && (y % 100 != 0 || y % 400 == 0)

/-- Number of days in a month, as used by `datetime`'s validation. -/
def days_in_month (y m : Nat) : Nat :=
  if m == 2 then (if is_leap y then 29 else 28)
  else if m == 4 || m == 6 || m == 9 || m == 11 then 30
  else 31

/-- A `datetime.datetime` value at the granularity the script uses. -/
structure DateTime where
  year : Nat
  month : Nat
  day : Nat
  hour : Nat
  minute : Nat
  second : Nat
  microsecond : Nat
deriving DecidableEq, Repr

/-- `next_quarter_hour(now)` from the source.  The final
`now.replace(hour=..., minute=..., second=0, microsecond=0, day=new_day)`
validates the new day against the month of `now` and raises `ValueError`
when it is out of range, which `Except.error` models. -/
def next_quarter_hour (now : DateTime) : Except String DateTime :=
  let quarter := now.minute / 15
  let next_quarter := if now.minute % 15 == 0 && now.second == 0 then quarter else quarter + 1
  let new_minute := next_quarter * 15
  let new_hour := now.hour
  let new_day := now.day
  let s : Nat × Nat × Nat :=
    if new_minute == 60 then
      if new_hour + 1 == 24 then (0, 0, new_day + 1) else (0, new_hour + 1, new_day)
    else (new_minute, new_hour, new_day)
  if 1 ≤ s.2.2 ∧ s.2.2 ≤ days_in_month now.year now.month then
    Except.ok { now with hour := s.2.1, minute := s.1, second := 0, microsecond := 0,
                         day := s.2.2 }
  else Except.error "day is out of range for month"

/-- `fetch_and_process_data()` with the downloaded-and-processed table (or the
exception the attempt raised) injected as `attempt`.  Every exception inside
the `try` body — network failure, a missing link, an empty file — is caught
by the single `except` clause, which prints and calls `sys.exit(1)`; the exit
code is the `error` payload. -/
def fetch_and_process_data (attempt : Except String (List Row)) :
    Except Nat (List Row) :=
  match attempt with
  | Except.error _ => Except.error 1
  | Except.ok df => if df.isEmpty then Except.error 1 else Except.ok df

/-- `main()` observed at the rendering boundary: `some (row, fallback_message)`
is the resolution result handed to `generate_html`; `none` means the process
terminated before rendering (via `sys.exit` or an uncaught exception), so no
page is produced. -/
def main_run (attempt : Except String (List Row)) (now : Nat) :
    Option (Row × String) :=
  match fetch_and_process_data attempt with
  | Except.error _ => none
  | Except.ok df => (get_current_time_block now df).toOption

/-! ### Helper lemmas -/

theorem list_find_congr {α : Type} (p q : α → Bool) :
    ∀ l : List α, (∀ c ∈ l, p c = q c) → l.find? p = l.find? q := by
  intro l
  induction l with
  | nil => intro _; rfl
  | cons a l ih =>
    intro h
    have ha : p a = q a := h a (List.mem_cons_self a l)
    rw [List.find?_cons, List.find?_cons, ha]
    cases q a with
    | true => rfl
    | false => exact ih fun c hc => h c (List.mem_cons_of_mem a hc)

theorem scan_go_cons (now : Nat) (c : Candidate) (rest : List Candidate) (pos : Nat)
    (lb : Option (Nat × Nat)) :
    scan_go now (c :: rest) pos lb =
      if interval_matches_row now c then (some c.idx, scan_lb_update now c pos lb)
      else scan_go now rest (pos + 1) (scan_lb_update now c pos lb) := rfl

/-- The first component of the scanning loop is the first candidate, in list
order, whose interval contains `now`; the accumulated fallback state never
influences it. -/
theorem scan_go_fst (now : Nat) :
    ∀ (vr : List Candidate) (pos : Nat) (lb : Option (Nat × Nat)),
      (scan_go now vr pos lb).1 = (vr.find? (interval_matches_row now)).map Candidate.idx := by
  intro vr
  induction vr with
  | nil => intro pos lb; rfl
  | cons c rest ih =>
    intro pos lb
    rw [scan_go_cons, List.find?_cons]
    cases hm : interval_matches_row now c with
    | true => rfl
    | false => simpa [hm] using ih (pos + 1) _

/-- Every candidate produced by the `valid_rows` loop points back at a table
row whose interval parses to exactly its recorded start/end, and its
crosses-midnight flag is the `start > end` comparison. -/
theorem valid_rows_aux_mem (c : Candidate) :
    ∀ (table : List Row) (i : Nat), c ∈ valid_rows_aux i table →
      ∃ k r, table.get? k = some r ∧ c.idx = i + k ∧
        row_parses r = some (c.start, c.endT) ∧
        c.crossesMidnight = decide (c.start > c.endT) := by
  intro table
  induction table with
  | nil => intro i h; exact absurd h (List.not_mem_nil c)
  | cons r rest ih =>
    intro i h
    rw [valid_rows_aux] at h
    cases hp : row_parses r with
    | none =>
      rw [hp] at h
      obtain ⟨k, r', hg, hi, hrest⟩ := ih (i + 1) h
      exact ⟨k + 1, r', by simpa using hg, by omega, hrest⟩
    | some p =>
      rcases p with ⟨st, en⟩
      rw [hp] at h
      rcases List.mem_cons.mp h with hc | hc
      · subst hc
        exact ⟨0, r, rfl, by simp, hp, rfl⟩
      · obtain ⟨k, r', hg, hi, hrest⟩ := ih (i + 1) hc
        exact ⟨k + 1, r', by simpa using hg, by omega, hrest⟩

/-- Specialisation of `valid_rows_aux_mem` to the full candidate list: the
candidate's `idx` is a valid table index. -/
theorem valid_rows_mem (c : Candidate) (table : List Row) (h : c ∈ valid_rows table) :
    ∃ r, table.get? c.idx = some r ∧ row_parses r = some (c.start, c.endT) ∧
      c.crossesMidnight = decide (c.start > c.endT) := by
  obtain ⟨k, r, hg, hi, hp, hx⟩ := valid_rows_aux_mem c table 0 h
  exact ⟨r, by simpa [hi] using hg, hp, hx⟩

/-- On any candidate whose crosses-midnight flag agrees with its endpoints,
the loop's containment test is the specification's case split: half-open
containment for a proper interval, union of the two day fragments for a
wrapping one. -/
theorem interval_matches_row_eq (now : Nat) (c : Candidate)
    (h : c.crossesMidnight = decide (c.start > c.endT)) :
    interval_matches_row now c =
      decide ((c.start < c.endT ∧ c.start ≤ now ∧ now < c.endT) ∨
              (c.endT < c.start ∧ (c.start ≤ now ∨ now < c.endT))) := by
  rw [interval_matches_row, h]
  rcases Nat.lt_or_ge c.endT c.start with hw | hw
  · rw [if_pos (decide_eq_true hw)]
    apply Bool.eq_iff_iff.mpr
    simp only [Bool.or_eq_true, decide_eq_true_eq]
    omega
  · rw [if_neg (by simp only [decide_eq_true_eq]; omega)]
    apply Bool.eq_iff_iff.mpr
    simp only [Bool.and_eq_true, decide_eq_true_eq]
    omega

/-- Full characterisation of the `last_before_now` state computed by a
match-free run of the scanning loop: either no scanned candidate has started
yet and the incoming state passes through, or the state ends at the first
occurrence of the maximal start among started candidates (strictly beating
the incoming state), or the incoming state already dominates every scanned
candidate and survives. -/
theorem scan_go_lb_spec (now : Nat) :
    ∀ (vr : List Candidate) (pos : Nat) (lb : Option (Nat × Nat)),
      (∀ c ∈ vr, interval_matches_row now c = false) →
      ((scan_go now vr pos lb).2 = lb ∧ ∀ k c, vr.get? k = some c → ¬ c.start ≤ now)
      ∨ (∃ k c, vr.get? k = some c ∧ c.start ≤ now ∧
          (scan_go now vr pos lb).2 = some (pos + k, c.start) ∧
          (∀ k' c', vr.get? k' = some c' → c'.start ≤ now → c'.start ≤ c.start) ∧
          (∀ k' c', vr.get? k' = some c' → c'.start ≤ now → c'.start = c.start → k ≤ k') ∧
          (∀ p0 s0, lb = some (p0, s0) → s0 < c.start))
      ∨ (∃ p0 s0, lb = some (p0, s0) ∧ (scan_go now vr pos lb).2 = some (p0, s0) ∧
          ∀ k c, vr.get? k = some c → c.start ≤ now → c.start ≤ s0) := by
  intro vr
  induction vr with
  | nil =>
    intro pos lb _
    exact Or.inl ⟨rfl, fun k c hk => by simp at hk⟩
  | cons c rest ih =>
    intro pos lb hno
    have hc : interval_matches_row now c = false := hno c (List.mem_cons_self c rest)
    have hrest : ∀ x ∈ rest, interval_matches_row now x = false :=
      fun x hx => hno x (List.mem_cons_of_mem c hx)
    rw [scan_go_cons, hc]
    simp only [Bool.false_eq_true, if_false]
    by_cases hnow : c.start ≤ now
    · -- the head candidate has started: the state strictly improves to it
      -- unless the incoming state is at least as good
      have hupd : ∀ (p0 s0 : Nat), lb = some (p0, s0) → ¬ s0 < c.start →
          scan_lb_update now c pos lb = lb := by
        intro p0 s0 h0 hlt
        rw [h0, scan_lb_update, if_pos hnow, if_neg hlt]
      have hupd2 : (lb = none ∨ ∃ p0 s0, lb = some (p0, s0) ∧ s0 < c.start) →
          scan_lb_update now c pos lb = some (pos, c.start) := by
        rintro (h0 | ⟨p0, s0, h0, hlt⟩) <;> rw [h0, scan_lb_update, if_pos hnow]
        rw [if_pos hlt]
      by_cases hbeats : ∀ p0 s0, lb = some (p0, s0) → s0 < c.start
      · -- the state moves to the head candidate before the tail is scanned
        have h1 : scan_lb_update now c pos lb = some (pos, c.start) := by
          apply hupd2
          cases h0 : lb with
          | none => exact Or.inl rfl
          | some v =>
            obtain ⟨pv, sv⟩ := v
            exact Or.inr ⟨pv, sv, rfl, hbeats pv sv h0⟩
        rw [h1]
        rcases ih (pos + 1) (some (pos, c.start)) hrest with
          ⟨heq, hnone⟩ | ⟨k, c', hget, hle, heq, hmax, hfirst, hlb⟩ | ⟨p0, s0, hlbeq, heq, hdom⟩
        · refine Or.inr (Or.inl ⟨0, c, rfl, hnow, by simpa using heq, ?_, ?_, hbeats⟩)
          · intro k' c' hget' hle'
            cases k' with
            | zero => simp at hget'; subst hget'; omega
            | succ k'' => exact absurd hle' (hnone k'' c' (by simpa using hget'))
          · intro k' c' _ _ _; exact Nat.zero_le _
        · have hgt : c.start < c'.start := hlb pos c.start rfl
          refine Or.inr (Or.inl ⟨k + 1, c', by simpa using hget, hle, ?_, ?_, ?_, ?_⟩)
          · rw [heq]
            have h3 : pos + 1 + k = pos + (k + 1) := by omega
            rw [h3]
          · intro k' x hget' hle'
            cases k' with
            | zero => simp at hget'; subst hget'; omega
            | succ k'' => exact hmax k'' x (by simpa using hget') hle'
          · intro k' x hget' hle' hx
            cases k' with
            | zero => simp at hget'; subst hget'; omega
            | succ k'' => exact Nat.succ_le_succ (hfirst k'' x (by simpa using hget') hle' hx)
          · intro p0 s0 h0
            have := hbeats p0 s0 h0
            omega
        · obtain ⟨hp0, hs0⟩ : pos = p0 ∧ c.start = s0 := by simpa using hlbeq
          refine Or.inr (Or.inl ⟨0, c, rfl, hnow, ?_, ?_, ?_, hbeats⟩)
          · rw [heq, ← hp0, ← hs0]
            simp
          · intro k' c' hget' hle'
            cases k' with
            | zero => simp at hget'; subst hget'; omega
            | succ k'' =>
              have := hdom k'' c' (by simpa using hget') hle'
              omega
          · intro k' c' _ _ _; exact Nat.zero_le _
      · -- the incoming state is at least as good as the head candidate
        push_neg at hbeats
        obtain ⟨p0, s0, h0, hge⟩ := hbeats
        have h1 : scan_lb_update now c pos lb = some (p0, s0) := by
          rw [hupd p0 s0 h0 (by omega), h0]
        rw [h1]
        rcases ih (pos + 1) (some (p0, s0)) hrest with
          ⟨heq, hnone⟩ | ⟨k, c', hget, hle, heq, hmax, hfirst, hlb⟩ | ⟨p0', s0', hlbeq, heq, hdom⟩
        · refine Or.inr (Or.inr ⟨p0, s0, h0, heq, ?_⟩)
          intro k' c' hget' hle'
          cases k' with
          | zero => simp at hget'; subst hget'; omega
          | succ k'' => exact absurd hle' (hnone k'' c' (by simpa using hget'))
        · have hgt : s0 < c'.start := hlb p0 s0 rfl
          refine Or.inr (Or.inl ⟨k + 1, c', by simpa using hget, hle, ?_, ?_, ?_, ?_⟩)
          · rw [heq]
            have h3 : pos + 1 + k = pos + (k + 1) := by omega
            rw [h3]
          · intro k' x hget' hle'
            cases k' with
            | zero => simp at hget'; subst hget'; omega
            | succ k'' => exact hmax k'' x (by simpa using hget') hle'
          · intro k' x hget' hle' hx
            cases k' with
            | zero => simp at hget'; subst hget'; omega
            | succ k'' => exact Nat.succ_le_succ (hfirst k'' x (by simpa using hget') hle' hx)
          · intro p1 s1 h1'
            rw [h0] at h1'
            simp at h1'
            omega
        · obtain ⟨hp, hs⟩ : p0 = p0' ∧ s0 = s0' := by simpa using hlbeq
          refine Or.inr (Or.inr ⟨p0, s0, h0, by rw [heq, ← hp, ← hs], ?_⟩)
          intro k' c' hget' hle'
          cases k' with
          | zero => simp at hget'; subst hget'; omega
          | succ k'' =>
            have := hdom k'' c' (by simpa using hget') hle'
            omega
    · -- the head candidate has not started: the state passes through untouched
      have h1 : scan_lb_update now c pos lb = lb := by
        rw [scan_lb_update.eq_def, if_neg hnow]
      rw [h1]
      rcases ih (pos + 1) lb hrest with
        ⟨heq, hnone⟩ | ⟨k, c', hget, hle, heq, hmax, hfirst, hlb⟩ | ⟨p0, s0, hlbeq, heq, hdom⟩
      · refine Or.inl ⟨heq, ?_⟩
        intro k' c' hget'
        cases k' with
        | zero => simp at hget'; subst hget'; exact hnow
        | succ k'' => exact hnone k'' c' (by simpa using hget')
      · refine Or.inr (Or.inl ⟨k + 1, c', by simpa using hget, hle, ?_, ?_, ?_, hlb⟩)
        · rw [heq]
          have h3 : pos + 1 + k = pos + (k + 1) := by omega
          rw [h3]
        · intro k' x hget' hle'
          cases k' with
          | zero => simp at hget'; subst hget'; exact absurd hle' hnow
          | succ k'' => exact hmax k'' x (by simpa using hget') hle'
        · intro k' x hget' hle' hx
          cases k' with
          | zero => simp at hget'; subst hget'; exact absurd hle' hnow
          | succ k'' => exact Nat.succ_le_succ (hfirst k'' x (by simpa using hget') hle' hx)
      · refine Or.inr (Or.inr ⟨p0, s0, hlbeq, heq, ?_⟩)
        intro k' c' hget' hle'
        cases k' with
        | zero => simp at hget'; subst hget'; exact absurd hle' hnow
        | succ k'' => exact hdom k'' c' (by simpa using hget') hle'

/-- The backward walk, started at a valid index, never raises: it yields the
first non-empty row at or below the start index, or reports that all of them
were empty. -/
theorem walk_back_spec (table : List Row) :
    ∀ (i : Nat) (row : Row), table.get? i = some row →
      (∃ j r, j ≤ i ∧ table.get? j = some r ∧ row_is_empty r = false ∧
        walk_back table i = Except.ok (some r))
      ∨ walk_back table i = Except.ok none := by
  intro i
  induction i with
  | zero =>
    intro row h
    cases hem : row_is_empty row with
    | false =>
      exact Or.inl ⟨0, row, Nat.le_refl 0, h, hem, by rw [walk_back, h]; simp [hem]⟩
    | true =>
      refine Or.inr ?_
      rw [walk_back, h]
      simp [hem]
  | succ j ih =>
    intro row h
    cases hem : row_is_empty row with
    | false =>
      exact Or.inl ⟨j + 1, row, Nat.le_refl _, h, hem, by rw [walk_back, h]; simp [hem]⟩
    | true =>
      have hstep : walk_back table (j + 1) = walk_back table j := by
        rw [walk_back, h]
        simp [hem]
      have hj : ∃ row', table.get? j = some row' := by
        have hlen : j + 1 < table.length := (List.get?_eq_some.mp h).1
        exact ⟨table.get ⟨j, by omega⟩, List.get?_eq_get (by omega)⟩
      obtain ⟨row', hj⟩ := hj
      rcases ih row' hj with ⟨j', r, hle, hg, hne, hwb⟩ | hwb
      · exact Or.inl ⟨j', r, by omega, hg, hne, by rw [hstep, hwb]⟩
      · exact Or.inr (by rw [hstep, hwb])

/-- `get_last_non_empty_row`, started at a valid index, returns a row and a
message: either a non-empty row at or below the start index, or the terminal
"no non-empty row found" result. -/
theorem get_last_non_empty_row_spec (table : List Row) (i : Nat) (row : Row)
    (h : table.get? i = some row) :
    ∃ r msg, get_last_non_empty_row table i = Except.ok (r, msg) ∧
      ((∃ j, j ≤ i ∧ table.get? j = some r ∧ row_is_empty r = false)
       ∨ msg = "No non-empty row found at all; showing earliest row from table.") := by
  rcases walk_back_spec table i row h with ⟨j, r, hle, hg, hne, hwb⟩ | hwb
  · have heq : get_last_non_empty_row table i =
        Except.ok (r, "No new data available after interval " ++ interval_text r ++
          ". Showing last known data from " ++ interval_text r ++ ".") := by
      rw [get_last_non_empty_row, hwb]
    exact ⟨r, _, heq, Or.inl ⟨j, hle, hg, hne⟩⟩
  · have h0 : ∃ r0, table.get? 0 = some r0 := by
      have hlen : i < table.length := (List.get?_eq_some.mp h).1
      exact ⟨table.get ⟨0, by omega⟩, List.get?_eq_get (by omega)⟩
    obtain ⟨r0, h0⟩ := h0
    have heq : get_last_non_empty_row table i =
        Except.ok (r0, "No non-empty row found at all; showing earliest row from table.") := by
      rw [get_last_non_empty_row, hwb, h0]
    exact ⟨r0, _, heq, Or.inr rfl⟩

/-- When the scan reports an exact match at table index `midx`, the resolver
returns that row when it carries data and otherwise hands over to the
backward walk started at `midx`. -/
theorem get_current_time_block_matched (now : Nat) (table : List Row) (midx : Nat) (row : Row)
    (hm : (scan now (valid_rows table)).1 = some midx)
    (hrow : table.get? midx = some row) :
    get_current_time_block now table =
      if row_is_empty row then get_last_non_empty_row table midx
      else Except.ok (row, "") := by
  cases hv : valid_rows table with
  | nil => rw [hv] at hm; exact absurd hm (by rw [scan]; simp [scan_go])
  | cons c0 rest =>
    rw [get_current_time_block, hv]
    rw [hv] at hm
    simp only [hm, hrow]

/-- When the scan reports no exact match but a `last_before_now` state at
position `p` of the candidate list, the resolver uses that candidate's table
row: directly when non-empty, else through the backward walk. -/
theorem get_current_time_block_fallback (now : Nat) (table : List Row) (p s : Nat)
    (c : Candidate) (row : Row)
    (hm : (scan now (valid_rows table)).1 = none)
    (hl : (scan now (valid_rows table)).2 = some (p, s))
    (hc : (valid_rows table).get? p = some c)
    (hrow : table.get? c.idx = some row) :
    get_current_time_block now table =
      if row_is_empty row then get_last_non_empty_row table c.idx
      else Except.ok (row, "No exact match for current time; showing last known data from " ++
        interval_text row ++ ".") := by
  cases hv : valid_rows table with
  | nil => rw [hv] at hc; simp at hc
  | cons c0 rest =>
    rw [get_current_time_block, hv]
    rw [hv] at hm hl hc
    simp only [hm, hl, hc, hrow]

/-- When the scan reports neither an exact match nor a started candidate, the
resolver takes the first candidate's table row with the all-future message. -/
theorem get_current_time_block_future (now : Nat) (table : List Row)
    (c0 : Candidate) (rest : List Candidate) (row : Row)
    (hv : valid_rows table = c0 :: rest)
    (hm : (scan now (valid_rows table)).1 = none)
    (hl : (scan now (valid_rows table)).2 = none)
    (hrow : table.get? c0.idx = some row) :
    get_current_time_block now table =
      Except.ok (row, "All intervals are in the future; showing earliest interval in the data.") := by
  rw [get_current_time_block, hv]
  rw [hv] at hm hl
  simp only [hm, hl, List.head?_cons, hrow]

/-- A match-free scan that reports a `last_before_now` state points at an
existing candidate whose start is its recorded start and is not after `now`. -/
theorem scan_lb_get (now : Nat) (vr : List Candidate) (p s : Nat)
    (hm : (scan now vr).1 = none)
    (hl : (scan now vr).2 = some (p, s)) :
    ∃ c, vr.get? p = some c ∧ c.start = s ∧ c.start ≤ now := by
  have hno : ∀ c ∈ vr, interval_matches_row now c = false := by
    rw [scan, scan_go_fst] at hm
    have hfn := Option.map_eq_none'.mp hm
    intro c hc
    simpa using List.find?_eq_none.mp hfn c hc
  rw [scan] at hl
  rcases scan_go_lb_spec now vr 0 none hno with
    ⟨heq, _⟩ | ⟨k, c, hget, hle, heq, _, _, _⟩ | ⟨p0, s0, hlbeq, _, _⟩
  · rw [heq] at hl; exact absurd hl (by simp)
  · rw [heq] at hl
    simp only [Option.some.injEq, Prod.mk.injEq] at hl
    refine ⟨c, ?_, hl.2, hle⟩
    have : k = p := by omega
    rw [← this]
    exact hget
  · exact absurd hlbeq (by simp)

/-- Whenever at least one interval parses, the resolver completes normally:
it returns a row and a message, never an exception. -/
theorem get_current_time_block_ok (now : Nat) (table : List Row)
    (hvr : valid_rows table ≠ []) :
    ∃ res, get_current_time_block now table = Except.ok res := by
  cases hm : (scan now (valid_rows table)).1 with
  | some midx =>
    have hfind : ∃ c, (valid_rows table).find? (interval_matches_row now) = some c ∧
        c.idx = midx := by
      rw [scan, scan_go_fst] at hm
      rcases Option.map_eq_some'.mp hm with ⟨c, hc, hidx⟩
      exact ⟨c, hc, hidx⟩
    obtain ⟨c, hfind, hidx⟩ := hfind
    have hmem : c ∈ valid_rows table := List.mem_of_find?_eq_some hfind
    obtain ⟨row, hrow, -, -⟩ := valid_rows_mem c table hmem
    have hrow' : table.get? midx = some row := by rw [← hidx]; exact hrow
    rw [get_current_time_block_matched now table midx row hm hrow']
    cases hem : row_is_empty row with
    | true =>
      obtain ⟨r, msg, heq, -⟩ := get_last_non_empty_row_spec table midx row hrow'
      exact ⟨(r, msg), by simp [hem, heq]⟩
    | false => exact ⟨(row, ""), by simp [hem]⟩
  | none =>
    cases hl : (scan now (valid_rows table)).2 with
    | some ps =>
      obtain ⟨p, s⟩ := ps
      obtain ⟨c, hc, -, -⟩ := scan_lb_get now (valid_rows table) p s hm hl
      have hmem : c ∈ valid_rows table := List.get?_mem hc
      obtain ⟨row, hrow, -, -⟩ := valid_rows_mem c table hmem
      rw [get_current_time_block_fallback now table p s c row hm hl hc hrow]
      cases hem : row_is_empty row with
      | true =>
        obtain ⟨r, msg, heq, -⟩ := get_last_non_empty_row_spec table c.idx row hrow
        exact ⟨(r, msg), by simp [hem, heq]⟩
      | false =>
        exact ⟨(row, "No exact match for current time; showing last known data from " ++
          interval_text row ++ "."), by simp [hem]⟩
    | none =>
      cases hv : valid_rows table with
      | nil => exact absurd hv hvr
      | cons c0 rest =>
        have hmem : c0 ∈ valid_rows table := by rw [hv]; exact List.mem_cons_self _ _
        obtain ⟨row, hrow, -, -⟩ := valid_rows_mem c0 table hmem
        exact ⟨_, get_current_time_block_future now table c0 rest row hv hm hl hrow⟩

/-! ### Concrete data used by witnesses and counterexamples -/

/-- A non-empty row for the 09:00-09:15 block. -/
def rowA : Row := ⟨some "09:00-09:15", [some "5"]⟩

/-- An empty row for the 09:15-09:30 block. -/
def rowB : Row := ⟨some "09:15-09:30", [none]⟩

/-- Scenario A's table: published data followed by a not-yet-published block. -/
def tableAB : List Row := [rowA, rowB]

/-- A non-empty row with the degenerate interval 10:00-10:00. -/
def rowDeg : Row := ⟨some "10:00-10:00", [some "7"]⟩

/-- A non-empty row for the 10:00-10:15 block. -/
def rowC : Row := ⟨some "10:00-10:15", [some "3"]⟩

/-- An empty row with an unparseable interval label. -/
def rowFoo : Row := ⟨some "foo", [none]⟩

/-- A non-empty row for the 08:00-08:15 block. -/
def rowW : Row := ⟨some "08:00-08:15", [some "2"]⟩

/-- Two rows whose intervals share the start time 09:00. -/
def rowT1 : Row := ⟨some "09:00-09:15", [some "1"]⟩

/-- Second row starting at 09:00, placed later in the table. -/
def rowT2 : Row := ⟨some "09:00-09:20", [some "2"]⟩

/-- Table with a duplicated start time. -/
def tableTie : List Row := [rowT1, rowT2]

/-- Table mixing an unparseable label with a valid row. -/
def tableMix : List Row := [⟨some "foo-bar", [some "9"]⟩, rowT1]

/-! ### Claims -/

/-- Claim C1: for every candidate row and every time of day `now`, the
resolver's scan treats the row as an exact match iff a non-wrapping interval
(`start < end`) satisfies `start <= now < end`, or a wrapping interval
(`start > end`) satisfies `now >= start` or `now < end`; and the match it
reports is the first such candidate in table order (the scan stops there). -/
theorem claim_c1_exact_match_rule (now : Nat) (table : List Row) :
    (scan now (valid_rows table)).1 =
      ((valid_rows table).find? (fun c =>
        decide ((c.start < c.endT ∧ c.start ≤ now ∧ now < c.endT) ∨
                (c.endT < c.start ∧ (c.start ≤ now ∨ now < c.endT))))).map Candidate.idx := by
  rw [scan, scan_go_fst]
  congr 1
  apply list_find_congr
  intro c hc
  obtain ⟨-, -, -, hx⟩ := valid_rows_mem c table hc
  exact interval_matches_row_eq now c hx

/-- Claim C2: when the exact-match row is empty, the resolver's result is a
non-empty row at or before the matched table index, or the explicit "no
non-empty row found" terminal result — and it is still a returned
row-plus-diagnostic, never an exception. -/
theorem claim_c2_fallback_monotonicity (now : Nat) (table : List Row) (midx : Nat) (row : Row)
    (hm : (scan now (valid_rows table)).1 = some midx)
    (hrow : table.get? midx = some row)
    (hempty : row_is_empty row = true) :
    ∃ r msg, get_current_time_block now table = Except.ok (r, msg) ∧
      ((∃ j, j ≤ midx ∧ table.get? j = some r ∧ row_is_empty r = false)
       ∨ msg = "No non-empty row found at all; showing earliest row from table.") := by
  rw [get_current_time_block_matched now table midx row hm hrow, if_pos hempty]
  exact get_last_non_empty_row_spec table midx row hrow

/-- Witness for claim C2 at Scenario A: `now` = 09:20, the matched 09:15-09:30
row is empty, and the resolver answers with the non-empty 09:00-09:15 row. -/
theorem claim_c2_fallback_monotonicity_witness :
    ∃ r msg, get_current_time_block 33600 tableAB = Except.ok (r, msg) ∧
      ((∃ j, j ≤ 1 ∧ tableAB.get? j = some r ∧ row_is_empty r = false)
       ∨ msg = "No non-empty row found at all; showing earliest row from table.") :=
  claim_c2_fallback_monotonicity 33600 tableAB 1 rowB rfl rfl rfl

/-- Claim C3, counterexample: at noon the degenerate 10:00-10:00 row is
selected through the latest-started-before-now path, so degenerate rows do
become latest-before-now candidates, contradicting the claim. -/
theorem claim_c3_degenerate_counterexample :
    get_current_time_block 43200 [rowDeg] =
      Except.ok (rowDeg,
        "No exact match for current time; showing last known data from 10:00-10:00.") := rfl

/-- Claim C3, amended: a degenerate row (`start == end`) is never selected as
the exact match; it is however kept in the candidate list and can become the
latest-started-before-now candidate. -/
theorem claim_c3_degenerate_no_exact_match (now : Nat) (table : List Row) (m : Nat)
    (hm : (scan now (valid_rows table)).1 = some m) :
    ∀ c ∈ valid_rows table, c.idx = m → c.start ≠ c.endT := by
  intro c hc hcm heq
  rw [scan, scan_go_fst] at hm
  rcases Option.map_eq_some'.mp hm with ⟨c', hfind, hidx⟩
  have hmatch := List.find?_some hfind
  obtain ⟨r, hrow, hparse, -⟩ := valid_rows_mem c table hc
  obtain ⟨r', hrow', hparse', hx'⟩ :=
    valid_rows_mem c' table (List.mem_of_find?_eq_some hfind)
  have h1 : table.get? c'.idx = some r := by rw [hidx, ← hcm]; exact hrow
  rw [h1] at hrow'
  have hrr : r = r' := Option.some.inj hrow'
  subst hrr
  have hp : c.start = c'.start ∧ c.endT = c'.endT := by
    have := hparse.symm.trans hparse'
    simpa using this
  have h2 : ¬ c'.start > c'.endT := by omega
  rw [interval_matches_row, hx', if_neg (by simpa using h2)] at hmatch
  simp only [Bool.and_eq_true, decide_eq_true_eq] at hmatch
  omega

/-- Witness for the amended claim C3: with a single 10:00-10:15 candidate
matched at 10:05, the matched candidate's endpoints differ. -/
theorem claim_c3_degenerate_no_exact_match_witness :
    (⟨0, 36000, 36900, false⟩ : Candidate).start ≠
      (⟨0, 36000, 36900, false⟩ : Candidate).endT :=
  claim_c3_degenerate_no_exact_match 36300 [rowC] 0 rfl
    ⟨0, 36000, 36900, false⟩ (by decide) rfl

/-- Claim C4, counterexample: on the empty table the resolver does not return
a "no data" result — it raises the positional-indexer error while taking the
last row. -/
theorem claim_c4_empty_table_counterexample :
    get_current_time_block 43200 ([] : List Row) =
      Except.error "single positional indexer is out-of-bounds" := rfl

/-- Claim C4, amended: on an empty table the resolver raises the indexing
error from taking the last row of an empty table; no "no data at all"
diagnostic exists on this path. -/
theorem claim_c4_empty_table_raises (now : Nat) :
    get_current_time_block now ([] : List Row) =
      Except.error "single positional indexer is out-of-bounds" := rfl

/-- Claim C5: the next-boundary calculator is correct on ordinary inputs
(10:07:30 rounds up to 10:15:00, an exact boundary 10:15:00 is returned
unchanged, and 23:59:00 carries into the next day), but on the last day of a
month the carried day exceeds the month length and `replace` raises instead
of rolling into the next month. -/
theorem claim_c5_next_quarter_hour_behaviour :
    next_quarter_hour ⟨2025, 1, 15, 10, 7, 30, 0⟩ = Except.ok ⟨2025, 1, 15, 10, 15, 0, 0⟩ ∧
    next_quarter_hour ⟨2025, 1, 15, 10, 15, 0, 0⟩ = Except.ok ⟨2025, 1, 15, 10, 15, 0, 0⟩ ∧
    next_quarter_hour ⟨2025, 1, 15, 23, 59, 0, 0⟩ = Except.ok ⟨2025, 1, 16, 0, 0, 0, 0⟩ ∧
    next_quarter_hour ⟨2025, 1, 31, 23, 59, 0, 0⟩ =
      Except.error "day is out of range for month" :=
  ⟨rfl, rfl, rfl, rfl⟩

/-- Claim C6, counterexample: walking back from the empty 09:15-09:30 row,
the diagnostic names the found row's label in both slots; it is not the
claimed message built from the original row's label. -/
theorem claim_c6_walkback_message_counterexample :
    get_last_non_empty_row tableAB 1 =
      Except.ok (rowA,
        "No new data available after interval 09:00-09:15. Showing last known data from 09:00-09:15.") ∧
    "No new data available after interval 09:00-09:15. Showing last known data from 09:00-09:15." ≠
      "no new data after interval 09:15-09:30; showing last known data from 09:00-09:15." :=
  ⟨rfl, by decide⟩

/-- Claim C6, amended: when the backward walk finds a non-empty row, the
diagnostic is "No new data available after interval `<foundLabel>`. Showing
last known data from `<foundLabel>`." — both placeholders are the found
row's label; the label of the row the walk started from is not used. -/
theorem claim_c6_walkback_message (table : List Row) (i : Nat) (r : Row)
    (h : walk_back table i = Except.ok (some r)) :
    get_last_non_empty_row table i =
      Except.ok (r, "No new data available after interval " ++ interval_text r ++
        ". Showing last known data from " ++ interval_text r ++ ".") := by
  rw [get_last_non_empty_row, h]

/-- Witness for the amended claim C6 on a one-row table. -/
theorem claim_c6_walkback_message_witness :
    walk_back [rowW] 0 = Except.ok (some rowW) ∧
    get_last_non_empty_row [rowW] 0 =
      Except.ok (rowW,
        "No new data available after interval 08:00-08:15. Showing last known data from 08:00-08:15.") :=
  ⟨rfl, claim_c6_walkback_message [rowW] 0 rowW rfl⟩

/-- Claim C7: with no exact match, when two candidates tie at the maximal
start not after `now`, the latest-started-before-now state resolves to a
position not after the first of them — the first in table order wins the
tie. -/
theorem claim_c7_tiebreak (now : Nat) (table : List Row) (i j : Nat) (ci cj : Candidate)
    (hm : (scan now (valid_rows table)).1 = none)
    (hij : i < j)
    (hi : (valid_rows table).get? i = some ci)
    (hj : (valid_rows table).get? j = some cj)
    (heq : ci.start = cj.start)
    (hle : ci.start ≤ now)
    (hmax : ∀ c ∈ valid_rows table, c.start ≤ now → c.start ≤ ci.start) :
    ∃ p, (scan now (valid_rows table)).2 = some (p, ci.start) ∧ p ≤ i := by
  have hno : ∀ c ∈ valid_rows table, interval_matches_row now c = false := by
    rw [scan, scan_go_fst] at hm
    have hfn := Option.map_eq_none'.mp hm
    intro c hc
    simpa using List.find?_eq_none.mp hfn c hc
  rcases scan_go_lb_spec now (valid_rows table) 0 none hno with
    ⟨-, hnone⟩ | ⟨k, c, hget, hcle, hres, hmax2, hfirst, -⟩ | ⟨p0, s0, hlbeq, -, -⟩
  · exact absurd hle (hnone i ci hi)
  · have h1 : c.start ≤ ci.start := hmax c (List.get?_mem hget) hcle
    have h2 : ci.start ≤ c.start := hmax2 i ci hi hle
    have h3 : ci.start = c.start := by omega
    refine ⟨k, ?_, hfirst i ci hi hle h3⟩
    rw [scan, hres, h3]
    simp
  · exact absurd hlbeq (by simp)

/-- Witness for claim C7: two candidates both starting at 09:00, scanned at
10:00 with no exact match, resolve to the earlier table position. -/
theorem claim_c7_tiebreak_witness :
    ∃ p, (scan 36000 (valid_rows tableTie)).2 = some (p, 32400) ∧ p ≤ 0 :=
  claim_c7_tiebreak 36000 tableTie 0 1 ⟨0, 32400, 33300, false⟩ ⟨1, 32400, 33600, false⟩
    rfl (by decide) rfl rfl rfl (by decide) (by decide)

/-- Claim C8: a row whose interval label fails to parse is excluded from the
candidate list, and as long as any row parses, resolution still completes
with an ordinary row-plus-diagnostic result — a malformed row never aborts
the run. -/
theorem claim_c8_unparseable_excluded (now : Nat) (table : List Row) :
    (∀ i r, table.get? i = some r → row_parses r = none →
      ∀ c ∈ valid_rows table, c.idx ≠ i)
    ∧ (valid_rows table ≠ [] →
      ∃ res, get_current_time_block now table = Except.ok res) := by
  constructor
  · intro i r hget hnp c hc hci
    obtain ⟨r', hrow', hparse', -⟩ := valid_rows_mem c table hc
    rw [hci, hget] at hrow'
    rw [Option.some.inj hrow'] at hnp
    rw [hnp] at hparse'
    exact Option.noConfusion hparse'
  · exact get_current_time_block_ok now table

/-- Witness for claim C8: with "foo-bar" at index 0 followed by a valid row,
the only candidate is the valid row at index 1 and resolution succeeds. -/
theorem claim_c8_unparseable_excluded_witness :
    (⟨1, 32400, 33300, false⟩ : Candidate).idx ≠ 0 ∧
    ∃ res, get_current_time_block 33000 tableMix = Except.ok res :=
  ⟨(claim_c8_unparseable_excluded 33000 tableMix).1 0 ⟨some "foo-bar", [some "9"]⟩ rfl rfl
      ⟨1, 32400, 33300, false⟩ (by decide),
    (claim_c8_unparseable_excluded 33000 tableMix).2 (by decide)⟩

/-- Claim C9, counterexample: when the fetch attempt raises, the program
exits before resolution, so no resolution result reaches the rendering
step and no page is produced. -/
theorem claim_c9_total_failure_counterexample :
    ¬ ∃ res, main_run (Except.error "ConnectionError") 43200 = some res := by
  rintro ⟨res, h⟩
  exact Option.noConfusion h

/-- Claim C9, amended: when the single fetch attempt raises or yields an
empty table, `fetch_and_process_data` exits the process with status 1; the
resolver and the rendering step never run, so no page is produced (there is
no retry loop in this script). -/
theorem claim_c9_total_failure_no_page (e : String) (now : Nat) :
    main_run (Except.error e) now = none ∧ main_run (Except.ok []) now = none :=
  ⟨rfl, rfl⟩

/-- Claim C10: when a non-empty table has no parseable interval at all, the
resolver returns the last row in table order with the "no parseable
intervals" diagnostic, without consulting the row classifier — so the
returned row may itself be empty. -/
theorem claim_c10_no_parseable_last_row (now : Nat) (table : List Row)
    (hne : table ≠ []) (hvr : valid_rows table = []) :
    ∃ r, table.getLast? = some r ∧
      get_current_time_block now table =
        Except.ok (r, "No parseable intervals in the data.") := by
  obtain ⟨r, hr⟩ : ∃ r, table.getLast? = some r := by
    cases hl : table.getLast? with
    | some r => exact ⟨r, rfl⟩
    | none => exact absurd (List.getLast?_eq_none_iff.mp hl) hne
  refine ⟨r, hr, ?_⟩
  rw [get_current_time_block, hvr, hr]

/-- Witness for claim C10: a single unparseable, empty row is returned
as-is, confirming that this path can hand back an empty row. -/
theorem claim_c10_no_parseable_last_row_witness :
    row_is_empty rowFoo = true ∧
    ∃ r, [rowFoo].getLast? = some r ∧
      get_current_time_block 0 [rowFoo] =
        Except.ok (r, "No parseable intervals in the data.") :=
  ⟨rfl, claim_c10_no_parseable_last_row 0 [rowFoo] (by decide) rfl⟩

end UpdateHtml
